import Mathlib

/-!
Verification of the module orchestration and plugin-loading core of the IGM
glacier-simulation framework (igm/common.py), as a shallow embedding.

Python modules are modelled as records carrying the set of attribute names
they expose (the code only ever observes modules through hasattr and through
the value of the dependencies attribute).  The import machinery
(importlib.import_module over the three framework namespaces and the working
directory) is modelled as an environment of partial name-to-module maps.
Python exceptions become an explicit error type threaded through Except.
-/

namespace Igm

/-- A loaded Python module, as observed by the orchestration core: its name,
the attribute names it exposes (hasattr), and the value of its dependencies
attribute (meaningful only when the string "dependencies" is among attrs). -/
structure Module where
  name : String
  attrs : List String
  deps : List String
deriving DecidableEq, Repr

/-- Python hasattr, restricted to the attribute names the core looks up. -/
def hasattr (m : Module) (a : String) : Bool := m.attrs.contains a

/-- The exceptions raised by the orchestration core:
ModuleNotFoundError from load_modules_from_directory, AttributeError from
validate_module, and IndexError from the singleton indexing in
add_dependencies. -/
inductive LoadError where
  | moduleNotFoundError (name : String) (folder : String)
  | attributeError (moduleName : String) (missing : String)
  | indexError
deriving DecidableEq, Repr

/-- The import environment: the igm installation path (Path(igm.__file__).parent)
and one name-to-module map per framework namespace plus the current
working directory of the caller. -/
structure Env where
  igm_path : String
  preproc : String → Option Module
  process : String → Option Module
  postproc : String → Option Module
  cwd : String → Option Module

/-- importlib lookup of igm.modules.{module_folder}.{module_name}: selects the
framework namespace named by the folder string. -/
def Env.dir (env : Env) (folder : String) : String → Option Module :=
  if folder = "preproc" then env.preproc
  else if folder = "process" then env.process
  else if folder = "postproc" then env.postproc
  else fun _ => none

/-- The user-visible message of each exception, as built by the f-strings in
igm/common.py (for AttributeError, the first argument of the constructor). -/
def LoadError.message (env : Env) : LoadError → String
  | .moduleNotFoundError name folder =>
      "Can not find module " ++ name ++ ". Make sure it is either in the 1) " ++
        env.igm_path ++ "/modules/" ++ folder ++
        " directory or 2) in your current working directory."
  | .attributeError moduleName missing =>
      "Module " ++ moduleName ++ " is missing the required function (" ++ missing ++
        "). If it is a custom python package, make sure to include it in the __init__.py file."
  | .indexError => "list index out of range"

/-- The required lifecycle attributes checked by validate_module, in source
order.  The attribute "params" is the parameter-registration capability
(the spec calls it register_params). -/
def required_functions : List String := ["params", "initialize", "finalize", "update"]

/-- validate_module: raises AttributeError at the first required function the
module lacks, in the order of required_functions. -/
def validate_module (m : Module) : Except LoadError Unit :=
  match required_functions.find? (fun fn => !(hasattr m fn)) with
  | some fn => .error (.attributeError m.name fn)
  | none => .ok ()

/-- The try/except ladder inside load_modules_from_directory for one name:
framework namespace first, then the current working directory, else
ModuleNotFoundError. -/
def import_module (env : Env) (folder : String) (name : String) : Except LoadError Module :=
  match Env.dir env folder name with
  | some module => .ok module
  | none =>
    match env.cwd name with
    | some module => .ok module
    | none => .error (.moduleNotFoundError name folder)

/-- The module a name resolves to, ignoring errors: framework namespace first,
falling back to the working directory. -/
def resolveName (env : Env) (folder : String) (name : String) : Option Module :=
  match Env.dir env folder name with
  | some module => some module
  | none => env.cwd name

/-- load_modules_from_directory: imports each name in order, validating each
imported module before moving on; the first exception aborts the whole call. -/
def load_modules_from_directory (env : Env) (modules_list : List String)
    (module_folder : String) : Except LoadError (List Module) :=
  match modules_list with
  | [] => .ok []
  | module_name :: rest =>
    match import_module env module_folder module_name with
    | .error e => .error e
    | .ok module =>
      match validate_module module with
      | .error e => .error e
      | .ok _ =>
        match load_modules_from_directory env rest module_folder with
        | .error e => .error e
        | .ok imported => .ok (module :: imported)

/-- The three ordered name lists of a configuration. -/
structure ModulesDict where
  modules_preproc : List String
  modules_process : List String
  modules_postproc : List String
deriving DecidableEq, Repr

/-- load_modules: resolves the three category lists independently and returns
their concatenation preproc ++ process ++ postproc. -/
def load_modules (env : Env) (md : ModulesDict) : Except LoadError (List Module) :=
  match load_modules_from_directory env md.modules_preproc "preproc" with
  | .error e => .error e
  | .ok imported_preproc_modules =>
    match load_modules_from_directory env md.modules_process "process" with
    | .error e => .error e
    | .ok imported_process_modules =>
      match load_modules_from_directory env md.modules_postproc "postproc" with
      | .error e => .error e
      | .ok imported_postproc_modules =>
        .ok (imported_preproc_modules ++ imported_process_modules ++ imported_postproc_modules)

/-- has_dependencies: hasattr(module, "dependencies"). -/
def has_dependencies (m : Module) : Bool := hasattr m "dependencies"

/-- The fixed directory search order of add_dependencies. -/
def directories_to_search : List String := ["preproc", "process", "postproc"]

/-- Python set insertion, as an order-deterministic duplicate-free list. -/
def setAdd (s : List Module) (m : Module) : List Module :=
  if m ∈ s then s else s ++ [m]

/-- The inner loop of add_dependencies for the dependency list of one module: try
each directory in order; a successful load contributes its first element and
stops the search; ModuleNotFoundError moves on to the next directory; any
other exception (AttributeError from validation, IndexError from indexing an
empty result) propagates. -/
def search_dependencies (env : Env) (deps : List String) :
    List String → Except LoadError (Option Module)
  | [] => .ok none
  | directory :: rest =>
    match load_modules_from_directory env deps directory with
    | .ok [] => .error .indexError
    | .ok (m :: _) => .ok (some m)
    | .error (.moduleNotFoundError _ _) => search_dependencies env deps rest
    | .error e => .error e

/-- The outer loop of add_dependencies, accumulating the set
imported_dependencies over the input modules. -/
def add_dependencies_aux (env : Env) (acc : List Module) :
    List Module → Except LoadError (List Module)
  | [] => .ok acc
  | module :: rest =>
    if has_dependencies module then
      match search_dependencies env module.deps directories_to_search with
      | .ok (some d) => add_dependencies_aux env (setAdd acc d) rest
      | .ok none => add_dependencies_aux env acc rest
      | .error e => .error e
    else add_dependencies_aux env acc rest

/-- add_dependencies: returns imported_modules ++ list(imported_dependencies). -/
def add_dependencies (env : Env) (imported_modules : List Module) :
    Except LoadError (List Module) :=
  match add_dependencies_aux env [] imported_modules with
  | .error e => .error e
  | .ok imported_dependencies => .ok (imported_modules ++ imported_dependencies)

/-- remove_comments: splits on the newline character (Python split with the
one-character separator "\n"), drops every line whose strip() starts with
"//" or "#", and joins the survivors back with newlines.  Whitespace is
modelled by Char.isWhitespace, matching the ASCII whitespace Python strips in
this dialect. -/
def remove_comments (json_str : String) : String :=
  let lines := json_str.split (fun c => c == '\n')
  let cleaned_lines := lines.filter
    (fun line => !(((line.trim).startsWith "//") || ((line.trim).startsWith "#")))
  String.intercalate "\n" cleaned_lines

/-- A top-level JSON value of the parameter file, as far as the override step
inspects one: a string or a list of strings. -/
inductive JsonValue where
  | jstr (s : String)
  | jlist (l : List String)
deriving DecidableEq, Repr

/-- Python dict lookup dic[k] on an insertion-ordered association list. -/
def lookupKey (dic_params : List (String × JsonValue)) (k : String) : Option JsonValue :=
  (dic_params.find? (fun kv => kv.1 == k)).map Prod.snd

/-- Python membership x in v: list membership for a list value, substring
containment for a string value. -/
def JsonValue.containsName (v : JsonValue) (s : String) : Bool :=
  match v with
  | .jlist l => l.contains s
  | .jstr t => 1 < (t.splitOn s).length

/-- The message passed to sys.exit by the deprecated time_step check. -/
def deprecation_exit_message : String :=
  "WARNING: the parameter time_step is deprecated, UPDATE you params.json file"

/-- Outcome of the parameter-override step overide_from_json_file: a sys.exit
abort, a KeyError (no modules_process key in the file), or normal completion
with the warnings printed for unknown keys and the filtered override dict. -/
inductive OverideResult where
  | exited (msg : String)
  | keyError (key : String)
  | ok (warnings : List String) (filtered_dict : List (String × JsonValue))
deriving DecidableEq, Repr

/-- overide_from_json_file, after the JSON text has been parsed into
dic_params and with LIST the option keys registered on the parser so far:
first the deprecated time_step check against dic_params["modules_process"]
(sys.exit when it hits), then one warning per key absent from LIST (when
check_if_params_exist), then the filtering of dic_params down to registered
keys, which are handed to parser.set_defaults. -/
def overide_from_json_file (LIST : List String) (dic_params : List (String × JsonValue))
    (check_if_params_exist : Bool) : OverideResult :=
  match lookupKey dic_params "modules_process" with
  | none => .keyError "modules_process"
  | some v =>
    if JsonValue.containsName v "time_step" then .exited deprecation_exit_message
    else
      let warnings :=
        if check_if_params_exist then
          (dic_params.map Prod.fst).filter (fun k => !(LIST.contains k))
        else []
      let filtered_dict := dic_params.filter (fun kv => LIST.contains kv.1)
      .ok warnings filtered_dict

/-- argparse parser.set_defaults(**filtered_dict): each registered option keeps
its key and takes the override value when the filtered dict has one. -/
def set_defaults (defaults : List (String × JsonValue))
    (filtered_dict : List (String × JsonValue)) : List (String × JsonValue) :=
  defaults.map (fun kv =>
    match lookupKey filtered_dict kv.1 with
    | some v => (kv.1, v)
    | none => kv)

/-- Outcome of one modelled run up to module resolution. -/
inductive RunResult where
  | exited (msg : String)
  | keyError (key : String)
  | loadFailed (e : LoadError)
  | resolved (modules : List Module) (warnings : List String)
deriving Repr

/-- Modelled from the spec: the run driver (not under src/) finalizes the
parameter set by calling overide_from_json_file before any module is
resolved, and only on its normal completion goes on to resolve the configured
module lists with load_modules; a sys.exit in the override step therefore
aborts the run with no module resolved. -/
def run_igm (env : Env) (LIST : List String) (dic_params : List (String × JsonValue))
    (md : ModulesDict) : RunResult :=
  match overide_from_json_file LIST dic_params true with
  | .exited msg => .exited msg
  | .keyError k => .keyError k
  | .ok warnings _filtered =>
    match load_modules env md with
    | .ok modules => .resolved modules warnings
    | .error e => .loadFailed e

/-! ### Concrete fixtures

Small environments and modules used to instantiate the general theorems and
to exhibit the behaviors of add_dependencies on explicit inputs. -/

/-- The attribute set of a well-formed module. -/
def validAttrs : List String := ["params", "initialize", "finalize", "update"]

def mA : Module := ⟨"mod_a", validAttrs, []⟩

def mB : Module := ⟨"mod_b", validAttrs, []⟩

def mC : Module := ⟨"mod_c", validAttrs, []⟩

/-- A module named dep that lives in the process namespace. -/
def mDepInProcess : Module := ⟨"dep_in_process", validAttrs, []⟩

/-- A different module, also reachable under the name dep, in the working
directory. -/
def mDepInCwd : Module := ⟨"dep_in_cwd", validAttrs, []⟩

/-- A pipeline module declaring the single dependency name dep. -/
def mNeedsDep : Module := ⟨"needs_dep", validAttrs ++ ["dependencies"], ["dep"]⟩

/-- A pipeline module declaring the two dependency names dep_a and dep_b. -/
def mNeedsTwo : Module := ⟨"needs_two", validAttrs ++ ["dependencies"], ["dep_a", "dep_b"]⟩

def mDepA : Module := ⟨"dep_a", validAttrs, []⟩

def mDepB : Module := ⟨"dep_b", validAttrs, []⟩

/-- A second pipeline module declaring the same dependency name dep. -/
def mAlsoNeedsDep : Module := ⟨"also_needs_dep", validAttrs ++ ["dependencies"], ["dep"]⟩

/-- The module the name dep resolves to in the preproc namespace. -/
def mDep : Module := ⟨"dep", validAttrs, []⟩

/-- Environment in which the name dep is found in the process namespace and
(as a different module) in the working directory, but not in preproc. -/
def envDepTwoPlaces : Env :=
  ⟨"/igm",
   fun _ => none,
   fun n => if n = "dep" then some mDepInProcess else none,
   fun _ => none,
   fun n => if n = "dep" then some mDepInCwd else none⟩

/-- Environment in which dep_a and dep_b both live in the preproc namespace. -/
def envTwoDeps : Env :=
  ⟨"/igm",
   fun n => if n = "dep_a" then some mDepA else if n = "dep_b" then some mDepB else none,
   fun _ => none, fun _ => none, fun _ => none⟩

/-- Environment in which the name dep lives in the preproc namespace only. -/
def envOneDep : Env :=
  ⟨"/igm",
   fun n => if n = "dep" then some mDep else none,
   fun _ => none, fun _ => none, fun _ => none⟩

/-- Environment with one module per category namespace and an empty working
directory. -/
def envThree : Env :=
  ⟨"/igm",
   fun n => if n = "mod_a" then some mA else none,
   fun n => if n = "mod_b" then some mB else none,
   fun n => if n = "mod_c" then some mC else none,
   fun _ => none⟩

/-- An environment whose namespaces are all empty. -/
def envEmpty : Env :=
  ⟨"/igm", fun _ => none, fun _ => none, fun _ => none, fun _ => none⟩

/-! ### Helper lemmas -/

theorem Env.dir_preproc (env : Env) : env.dir "preproc" = env.preproc := rfl

theorem Env.dir_process (env : Env) : env.dir "process" = env.process := rfl

theorem Env.dir_postproc (env : Env) : env.dir "postproc" = env.postproc := rfl

/-- import_module succeeds exactly on the first-hit resolution of the name. -/
theorem import_module_eq (env : Env) (folder name : String) :
    import_module env folder name =
      match resolveName env folder name with
      | some m => .ok m
      | none => .error (.moduleNotFoundError name folder) := by
  unfold import_module resolveName
  cases hd : Env.dir env folder name <;> cases hc : env.cwd name <;> simp

/-- validate_module succeeds iff every required function is an attribute. -/
theorem validate_ok_iff (m : Module) :
    validate_module m = .ok () ↔ ∀ fn ∈ required_functions, hasattr m fn = true := by
  unfold validate_module
  cases hfind : required_functions.find? (fun fn => !(hasattr m fn)) with
  | none =>
    constructor
    · intro _ fn hfn
      have h := List.find?_eq_none.mp hfind fn hfn
      simpa using h
    · intro _; rfl
  | some fn =>
    have hmem := List.mem_of_find?_eq_some hfind
    have hfalse := List.find?_some hfind
    simp only [Bool.not_eq_true'] at hfalse
    constructor
    · intro h; cases h
    · intro hall
      rw [hall fn hmem] at hfalse
      cases hfalse

/-- The AttributeError message textually contains the module name and the
name of the missing function. -/
theorem attributeError_message_parts (env : Env) (n fn : String) :
    (∃ x y, (LoadError.attributeError n fn).message env = x ++ n ++ y) ∧
    (∃ x y, (LoadError.attributeError n fn).message env = x ++ fn ++ y) := by
  constructor
  · refine ⟨"Module ", " is missing the required function (" ++ fn ++
      "). If it is a custom python package, make sure to include it in the __init__.py file.",
      ?_⟩
    simp [LoadError.message, String.append_assoc]
  · refine ⟨"Module " ++ n ++ " is missing the required function (",
      "). If it is a custom python package, make sure to include it in the __init__.py file.",
      ?_⟩
    simp [LoadError.message, String.append_assoc]

/-- When every element maps to some value, map and filterMap agree up to the
some wrapper (so filterMap preserves order and length). -/
theorem map_eq_filterMap_some {α β : Type} (f : α → Option β) (l : List α)
    (h : ∀ n ∈ l, ∃ m, f n = some m) : l.map f = (l.filterMap f).map some := by
  induction l with
  | nil => rfl
  | cons n rest ih =>
    obtain ⟨m, hm⟩ := h n (List.mem_cons_self n rest)
    rw [List.map_cons, hm, List.filterMap_cons_some hm, List.map_cons,
      ih (fun x hx => h x (List.mem_cons_of_mem n hx))]

/-- When every name of the list resolves to a module passing validation,
load_modules_from_directory succeeds and returns, in order, the resolution of
each name. -/
theorem load_resolve_all (env : Env) (folder : String) (names : List String)
    (h : ∀ n ∈ names, ∃ m, resolveName env folder n = some m ∧ validate_module m = .ok ()) :
    load_modules_from_directory env names folder =
      .ok (names.filterMap (resolveName env folder)) := by
  induction names with
  | nil => rfl
  | cons n rest ih =>
    obtain ⟨m, hm, hv⟩ := h n (List.mem_cons_self n rest)
    have hrest := ih (fun x hx => h x (List.mem_cons_of_mem n hx))
    simp only [load_modules_from_directory, import_module_eq, hm, hv, hrest,
      List.filterMap_cons_some hm]

theorem mem_setAdd_of_mem {s : List Module} {m x : Module} (h : m ∈ s) :
    m ∈ setAdd s x := by
  unfold setAdd
  split
  · exact h
  · exact List.mem_append_left _ h

theorem mem_setAdd_self (s : List Module) (x : Module) : x ∈ setAdd s x := by
  unfold setAdd
  split
  · assumption
  · exact List.mem_append_right _ (List.mem_singleton_self x)

theorem mem_setAdd_iff {s : List Module} {m x : Module} :
    m ∈ setAdd s x ↔ m ∈ s ∨ m = x := by
  unfold setAdd
  split
  · next h => exact ⟨Or.inl, fun | Or.inl hm => hm | Or.inr hm => hm ▸ h⟩
  · simp [List.mem_append]

theorem setAdd_nodup {s : List Module} (x : Module) (h : s.Nodup) :
    (setAdd s x).Nodup := by
  unfold setAdd
  split
  · exact h
  · next hx =>
    refine List.Nodup.append h (List.nodup_singleton x) ?_
    intro a ha ha2
    rw [List.mem_singleton] at ha2
    subst ha2
    exact hx ha

/-- Singleton-name loading succeeds on a resolvable, valid name. -/
theorem load_singleton_found (env : Env) (folder d : String) (m : Module)
    (h : resolveName env folder d = some m) (hv : validate_module m = .ok ()) :
    load_modules_from_directory env [d] folder = .ok [m] := by
  simp only [load_modules_from_directory, import_module_eq, h, hv]

/-- Singleton-name loading raises ModuleNotFoundError on an unresolvable name. -/
theorem load_singleton_notfound (env : Env) (folder d : String)
    (h : resolveName env folder d = none) :
    load_modules_from_directory env [d] folder = .error (.moduleNotFoundError d folder) := by
  simp only [load_modules_from_directory, import_module_eq, h]

/-- A directory where the single dependency name resolves (to a valid module)
ends the search with that module. -/
theorem search_cons_found (env : Env) (d : String) (m : Module) (dir : String)
    (rest : List String) (h : resolveName env dir d = some m)
    (hv : validate_module m = .ok ()) :
    search_dependencies env [d] (dir :: rest) = .ok (some m) := by
  simp only [search_dependencies, load_singleton_found env dir d m h hv]

/-- A directory where the single dependency name does not resolve is skipped. -/
theorem search_cons_notfound (env : Env) (d : String) (dir : String)
    (rest : List String) (h : resolveName env dir d = none) :
    search_dependencies env [d] (dir :: rest) = search_dependencies env [d] rest := by
  simp only [search_dependencies, load_singleton_notfound env dir d h]

/-- Elements of the accumulator survive the outer dependency loop. -/
theorem add_dependencies_aux_mem_mono (env : Env) :
    ∀ (l acc out : List Module) (m : Module), m ∈ acc →
      add_dependencies_aux env acc l = .ok out → m ∈ out := by
  intro l
  induction l with
  | nil =>
    intro acc out m hm hok
    injection hok with hok
    exact hok ▸ hm
  | cons A rest ih =>
    intro acc out m hm hok
    by_cases hd : has_dependencies A = true
    · cases hs : search_dependencies env A.deps directories_to_search with
      | error e =>
          simp only [add_dependencies_aux, hd, if_true, hs] at hok
          exact Except.noConfusion hok
      | ok r =>
        cases r with
        | some dmod =>
          simp only [add_dependencies_aux, hd, if_true, hs] at hok
          exact ih (setAdd acc dmod) out m (mem_setAdd_of_mem hm) hok
        | none =>
          simp only [add_dependencies_aux, hd, if_true, hs] at hok
          exact ih acc out m hm hok
    · simp only [add_dependencies_aux, hd, if_false] at hok
      exact ih acc out m hm hok

/-- The resolved first dependency of any module of the pipeline is in the
collected dependency set. -/
theorem add_dependencies_aux_mem_of_found (env : Env) :
    ∀ (l acc out : List Module) (A m : Module), A ∈ l → has_dependencies A = true →
      search_dependencies env A.deps directories_to_search = .ok (some m) →
      add_dependencies_aux env acc l = .ok out → m ∈ out := by
  intro l
  induction l with
  | nil => intro acc out A m hA; cases hA
  | cons B rest ih =>
    intro acc out A m hA hdA hsA hok
    rcases List.mem_cons.mp hA with hAB | hArest
    · subst hAB
      simp only [add_dependencies_aux, hdA, if_true, hsA] at hok
      exact add_dependencies_aux_mem_mono env rest (setAdd acc m) out m (mem_setAdd_self acc m) hok
    · by_cases hdB : has_dependencies B = true
      · cases hsB : search_dependencies env B.deps directories_to_search with
        | error e =>
            simp only [add_dependencies_aux, hdB, if_true, hsB] at hok
            exact Except.noConfusion hok
        | ok r =>
          cases r with
          | some dmod =>
            simp only [add_dependencies_aux, hdB, if_true, hsB] at hok
            exact ih (setAdd acc dmod) out A m hArest hdA hsA hok
          | none =>
            simp only [add_dependencies_aux, hdB, if_true, hsB] at hok
            exact ih acc out A m hArest hdA hsA hok
      · simp only [add_dependencies_aux, hdB, if_false] at hok
        exact ih acc out A m hArest hdA hsA hok

/-- The collected dependency set never holds duplicates. -/
theorem add_dependencies_aux_nodup (env : Env) :
    ∀ (l acc : List Module), acc.Nodup → ∀ out,
      add_dependencies_aux env acc l = .ok out → out.Nodup := by
  intro l
  induction l with
  | nil =>
    intro acc hacc out hok
    injection hok with hok
    exact hok ▸ hacc
  | cons A rest ih =>
    intro acc hacc out hok
    by_cases hd : has_dependencies A = true
    · cases hs : search_dependencies env A.deps directories_to_search with
      | error e =>
          simp only [add_dependencies_aux, hd, if_true, hs] at hok
          exact Except.noConfusion hok
      | ok r =>
        cases r with
        | some dmod =>
          simp only [add_dependencies_aux, hd, if_true, hs] at hok
          exact ih (setAdd acc dmod) (setAdd_nodup dmod hacc) out hok
        | none =>
          simp only [add_dependencies_aux, hd, if_true, hs] at hok
          exact ih acc hacc out hok
    · simp only [add_dependencies_aux, hd, if_false] at hok
      exact ih acc hacc out hok

/-- Full characterization of the outer dependency loop when every declared
dependency list searches without a propagating exception. -/
theorem add_dependencies_aux_spec (env : Env) :
    ∀ (l acc : List Module),
      (∀ A ∈ l, has_dependencies A = true →
        ∃ r, search_dependencies env A.deps directories_to_search = .ok r) →
      ∃ out, add_dependencies_aux env acc l = .ok out
        ∧ (∀ m ∈ acc, m ∈ out)
        ∧ (∀ A ∈ l, has_dependencies A = true → ∀ m,
            search_dependencies env A.deps directories_to_search = .ok (some m) → m ∈ out)
        ∧ (∀ m ∈ out, m ∈ acc ∨ ∃ A ∈ l, has_dependencies A = true ∧
            search_dependencies env A.deps directories_to_search = .ok (some m)) := by
  intro l
  induction l with
  | nil =>
    intro acc _
    exact ⟨acc, rfl, fun m hm => hm, by simp, fun m hm => Or.inl hm⟩
  | cons A rest ih =>
    intro acc h
    have hrest : ∀ B ∈ rest, has_dependencies B = true →
        ∃ r, search_dependencies env B.deps directories_to_search = .ok r :=
      fun B hB hdB => h B (List.mem_cons_of_mem A hB) hdB
    by_cases hd : has_dependencies A = true
    · obtain ⟨r, hr⟩ := h A (List.mem_cons_self A rest) hd
      cases r with
      | some dmod =>
        obtain ⟨out, hout, hacc, hfound, hsrc⟩ := ih (setAdd acc dmod) hrest
        refine ⟨out, ?_, ?_, ?_, ?_⟩
        · simp only [add_dependencies_aux, hd, if_true, hr]
          exact hout
        · exact fun m hm => hacc m (mem_setAdd_of_mem hm)
        · intro B hB hdB m hm
          rcases List.mem_cons.mp hB with hBA | hBrest
          · subst hBA
            rw [hr] at hm
            have heq : dmod = m := by
              injection hm with hm2
              injection hm2
            subst heq
            exact hacc dmod (mem_setAdd_self acc dmod)
          · exact hfound B hBrest hdB m hm
        · intro m hm
          rcases hsrc m hm with hin | ⟨B, hB, hdB, hs⟩
          · rcases mem_setAdd_iff.mp hin with hm2 | hm2
            · exact Or.inl hm2
            · exact Or.inr ⟨A, List.mem_cons_self A rest, hd, hm2 ▸ hr⟩
          · exact Or.inr ⟨B, List.mem_cons_of_mem A hB, hdB, hs⟩
      | none =>
        obtain ⟨out, hout, hacc, hfound, hsrc⟩ := ih acc hrest
        refine ⟨out, ?_, hacc, ?_, ?_⟩
        · simp only [add_dependencies_aux, hd, if_true, hr]
          exact hout
        · intro B hB hdB m hm
          rcases List.mem_cons.mp hB with hBA | hBrest
          · subst hBA
            rw [hr] at hm
            injection hm with hm
            cases hm
          · exact hfound B hBrest hdB m hm
        · intro m hm
          rcases hsrc m hm with hin | ⟨B, hB, hdB, hs⟩
          · exact Or.inl hin
          · exact Or.inr ⟨B, List.mem_cons_of_mem A hB, hdB, hs⟩
    · obtain ⟨out, hout, hacc, hfound, hsrc⟩ := ih acc hrest
      refine ⟨out, ?_, hacc, ?_, ?_⟩
      · simp only [add_dependencies_aux, hd, if_false]
        exact hout
      · intro B hB hdB m hm
        rcases List.mem_cons.mp hB with hBA | hBrest
        · subst hBA
          exact absurd hdB hd
        · exact hfound B hBrest hdB m hm
      · intro m hm
        rcases hsrc m hm with hin | ⟨B, hB, hdB, hs⟩
        · exact Or.inl hin
        · exact Or.inr ⟨B, List.mem_cons_of_mem A hB, hdB, hs⟩

/-! ### Claim theorems -/

/-- C1: when every name of the three category lists resolves (to a module
passing validation), load_modules succeeds and the pipeline is exactly the
resolved preproc list, then the resolved process list, then the resolved
postproc list, the modules within each category appearing in the order of
the given names. -/
theorem load_modules_pipeline_concat (env : Env) (md : ModulesDict)
    (h1 : ∀ n ∈ md.modules_preproc,
      ∃ m, resolveName env "preproc" n = some m ∧ validate_module m = .ok ())
    (h2 : ∀ n ∈ md.modules_process,
      ∃ m, resolveName env "process" n = some m ∧ validate_module m = .ok ())
    (h3 : ∀ n ∈ md.modules_postproc,
      ∃ m, resolveName env "postproc" n = some m ∧ validate_module m = .ok ()) :
    ∃ l1 l2 l3,
      load_modules_from_directory env md.modules_preproc "preproc" = .ok l1
      ∧ load_modules_from_directory env md.modules_process "process" = .ok l2
      ∧ load_modules_from_directory env md.modules_postproc "postproc" = .ok l3
      ∧ load_modules env md = .ok (l1 ++ l2 ++ l3)
      ∧ md.modules_preproc.map (resolveName env "preproc") = l1.map some
      ∧ md.modules_process.map (resolveName env "process") = l2.map some
      ∧ md.modules_postproc.map (resolveName env "postproc") = l3.map some := by
  have e1 := load_resolve_all env "preproc" md.modules_preproc h1
  have e2 := load_resolve_all env "process" md.modules_process h2
  have e3 := load_resolve_all env "postproc" md.modules_postproc h3
  refine ⟨_, _, _, e1, e2, e3, ?_, ?_, ?_, ?_⟩
  · unfold load_modules
    rw [e1, e2, e3]
  · exact map_eq_filterMap_some _ _ (fun n hn => ⟨(h1 n hn).choose, (h1 n hn).choose_spec.1⟩)
  · exact map_eq_filterMap_some _ _ (fun n hn => ⟨(h2 n hn).choose, (h2 n hn).choose_spec.1⟩)
  · exact map_eq_filterMap_some _ _ (fun n hn => ⟨(h3 n hn).choose, (h3 n hn).choose_spec.1⟩)

/-- The configuration of the C1 witness: one module name per category. -/
def mdThree : ModulesDict := ⟨["mod_a"], ["mod_b"], ["mod_c"]⟩

/-- C1 witness: with one module in each category namespace, the pipeline is
their concatenation in category order. -/
theorem load_modules_pipeline_concat_witness :
    ∃ l1 l2 l3,
      load_modules_from_directory envThree mdThree.modules_preproc "preproc" = .ok l1
      ∧ load_modules_from_directory envThree mdThree.modules_process "process" = .ok l2
      ∧ load_modules_from_directory envThree mdThree.modules_postproc "postproc" = .ok l3
      ∧ load_modules envThree mdThree = .ok (l1 ++ l2 ++ l3)
      ∧ mdThree.modules_preproc.map (resolveName envThree "preproc") = l1.map some
      ∧ mdThree.modules_process.map (resolveName envThree "process") = l2.map some
      ∧ mdThree.modules_postproc.map (resolveName envThree "postproc") = l3.map some := by
  refine load_modules_pipeline_concat envThree mdThree ?_ ?_ ?_ <;>
    intro n hn <;> simp only [mdThree, List.mem_singleton] at hn <;> subst hn
  · exact ⟨mA, rfl, rfl⟩
  · exact ⟨mB, rfl, rfl⟩
  · exact ⟨mC, rfl, rfl⟩

/-- C2: validate_module fails with an error naming the missing capability and
the module if and only if the module lacks at least one of the four required
capabilities -- parameter registration (the attribute the code checks is
spelled params; the spec calls this capability register_params), initialize,
update and finalize -- and a module exposing all four passes validation. -/
theorem validate_module_capability_check (m : Module) :
    (validate_module m = .ok () ↔
      (hasattr m "params" = true ∧ hasattr m "initialize" = true ∧
       hasattr m "update" = true ∧ hasattr m "finalize" = true))
    ∧ (∀ (env : Env) (e : LoadError), validate_module m = .error e →
        ∃ fn, fn ∈ required_functions ∧ hasattr m fn = false ∧
          e = .attributeError m.name fn ∧
          (∃ x y, e.message env = x ++ m.name ++ y) ∧
          (∃ x y, e.message env = x ++ fn ++ y)) := by
  constructor
  · rw [validate_ok_iff]
    simp only [required_functions, List.mem_cons, List.not_mem_nil, or_false,
      forall_eq_or_imp, forall_eq]
    tauto
  · intro env e he
    cases hfind : required_functions.find? (fun fn => !(hasattr m fn)) with
    | none =>
      have hv : validate_module m = .ok () := by unfold validate_module; rw [hfind]
      rw [hv] at he; cases he
    | some fn =>
      have hv : validate_module m = .error (.attributeError m.name fn) := by
        unfold validate_module; rw [hfind]
      rw [hv] at he
      injection he with he
      have hfalse := List.find?_some hfind
      simp only [Bool.not_eq_true'] at hfalse
      subst he
      exact ⟨fn, List.mem_of_find?_eq_some hfind, hfalse, rfl,
        attributeError_message_parts env m.name fn⟩

/-- C2 witness: a module missing only the update function fails validation,
and a module with all four required functions passes. -/
theorem validate_module_capability_check_witness :
    (validate_module mA = .ok () ↔
      (hasattr mA "params" = true ∧ hasattr mA "initialize" = true ∧
       hasattr mA "update" = true ∧ hasattr mA "finalize" = true))
    ∧ validate_module mA = .ok () := by
  refine ⟨(validate_module_capability_check mA).1, ?_⟩
  exact (validate_module_capability_check mA).1.mpr (by decide)

/-- C3 counterexample: the name dep is present in the process namespace (as
mDepInProcess) and in the working directory (as a different module mDepInCwd);
dependency expansion injects the working-directory module, not the process
one, so the process namespace does not take precedence over the working
directory. -/
theorem dependency_search_order_counterexample :
    mNeedsDep.deps = ["dep"]
    ∧ has_dependencies mNeedsDep = true
    ∧ envDepTwoPlaces.preproc "dep" = none
    ∧ envDepTwoPlaces.process "dep" = some mDepInProcess
    ∧ envDepTwoPlaces.cwd "dep" = some mDepInCwd
    ∧ add_dependencies envDepTwoPlaces [mNeedsDep] = .ok [mNeedsDep, mDepInCwd]
    ∧ mDepInCwd ≠ mDepInProcess := by
  exact ⟨rfl, rfl, rfl, rfl, rfl, rfl, by decide⟩

/-- C3 (amended): for a declared dependency name, each framework namespace is
tried in the order preproc, process, postproc, but the working directory is
consulted as a fallback inside every attempt; the effective precedence is
therefore preproc, then working directory, then process, then postproc, and
the first location holding the name wins. -/
theorem dependency_search_cwd_interleaved (env : Env) (d : String)
    (hv : ∀ m, (env.preproc d = some m ∨ env.cwd d = some m ∨ env.process d = some m ∨
      env.postproc d = some m) → validate_module m = .ok ()) :
    search_dependencies env [d] directories_to_search =
      .ok (List.findSome? id
        [env.preproc d, env.cwd d, env.process d, env.postproc d]) := by
  have hr1 : resolveName env "preproc" d =
      match env.preproc d with | some m => some m | none => env.cwd d := by
    unfold resolveName
    rw [Env.dir_preproc]
  have hr2 : resolveName env "process" d =
      match env.process d with | some m => some m | none => env.cwd d := by
    unfold resolveName
    rw [Env.dir_process]
  have hr3 : resolveName env "postproc" d =
      match env.postproc d with | some m => some m | none => env.cwd d := by
    unfold resolveName
    rw [Env.dir_postproc]
  unfold directories_to_search
  cases hp : env.preproc d with
  | some m =>
    rw [search_cons_found env d m _ _ (by rw [hr1, hp]) (hv m (Or.inl hp))]
    simp [List.findSome?, hp]
  | none =>
    cases hc : env.cwd d with
    | some m =>
      rw [search_cons_found env d m _ _ (by rw [hr1, hp]; exact hc) (hv m (Or.inr (Or.inl hc)))]
      simp [List.findSome?, hp, hc]
    | none =>
      rw [search_cons_notfound env d _ _ (by rw [hr1, hp]; exact hc)]
      cases hpr : env.process d with
      | some m =>
        rw [search_cons_found env d m _ _ (by rw [hr2, hpr]) (hv m (Or.inr (Or.inr (Or.inl hpr))))]
        simp [List.findSome?, hp, hc, hpr]
      | none =>
        rw [search_cons_notfound env d _ _ (by rw [hr2, hpr]; exact hc)]
        cases hpo : env.postproc d with
        | some m =>
          rw [search_cons_found env d m _ _ (by rw [hr3, hpo])
            (hv m (Or.inr (Or.inr (Or.inr hpo))))]
          simp [List.findSome?, hp, hc, hpr, hpo]
        | none =>
          rw [search_cons_notfound env d _ _ (by rw [hr3, hpo]; exact hc)]
          simp [search_dependencies, List.findSome?, hp, hc, hpr, hpo]

/-- C3 witness: in the two-places environment the search returns the
working-directory module because preproc misses and the fallback hits. -/
theorem dependency_search_cwd_interleaved_witness :
    search_dependencies envDepTwoPlaces ["dep"] directories_to_search =
      .ok (List.findSome? id
        [envDepTwoPlaces.preproc "dep", envDepTwoPlaces.cwd "dep",
         envDepTwoPlaces.process "dep", envDepTwoPlaces.postproc "dep"]) := by
  refine dependency_search_cwd_interleaved envDepTwoPlaces "dep" ?_
  intro m hm
  rcases hm with h | h | h | h
  · cases h
  · injection h with h
    subst h
    rfl
  · injection h with h
    subst h
    rfl
  · cases h

/-- C4 counterexample: mNeedsTwo declares the two dependencies dep_a and
dep_b, both present (and valid) in the preproc namespace, yet expansion
injects only dep_a: a declared and findable dependency is missing from the
final list. -/
theorem add_dependencies_completeness_counterexample :
    mNeedsTwo.deps = ["dep_a", "dep_b"]
    ∧ has_dependencies mNeedsTwo = true
    ∧ envTwoDeps.preproc "dep_a" = some mDepA
    ∧ envTwoDeps.preproc "dep_b" = some mDepB
    ∧ add_dependencies envTwoDeps [mNeedsTwo] = .ok [mNeedsTwo, mDepA]
    ∧ mDepB ∉ ([mNeedsTwo, mDepA] : List Module) := by
  exact ⟨rfl, rfl, rfl, rfl, rfl, by decide⟩

/-- C4 (amended): expansion returns the original list followed by, for each
module declaring dependencies, only the first module of the first dependency
list load that succeeds (the code indexes the loaded list at 0); a
dependency list that resolves in no search location is skipped silently and
expansion still returns normally. -/
theorem add_dependencies_first_found (env : Env) (L : List Module)
    (h : ∀ A ∈ L, has_dependencies A = true →
      ∃ r, search_dependencies env A.deps directories_to_search = .ok r) :
    ∃ t, add_dependencies env L = .ok (L ++ t)
      ∧ (∀ A ∈ L, has_dependencies A = true → ∀ m,
          search_dependencies env A.deps directories_to_search = .ok (some m) → m ∈ t)
      ∧ (∀ m ∈ t, ∃ A ∈ L, has_dependencies A = true ∧
          search_dependencies env A.deps directories_to_search = .ok (some m)) := by
  obtain ⟨out, hout, _, hfound, hsrc⟩ := add_dependencies_aux_spec env L [] h
  refine ⟨out, ?_, hfound, ?_⟩
  · unfold add_dependencies
    rw [hout]
  · intro m hm
    rcases hsrc m hm with h0 | h1
    · cases h0
    · exact h1

/-- C4 witness: a pipeline in which the dependency of the first module resolves
and the dependency list of the second resolves nowhere still expands normally, appending
exactly the found dependency. -/
theorem add_dependencies_first_found_witness :
    ∃ t, add_dependencies envOneDep [mNeedsDep, mNeedsTwo] =
        .ok ([mNeedsDep, mNeedsTwo] ++ t)
      ∧ (∀ A ∈ ([mNeedsDep, mNeedsTwo] : List Module), has_dependencies A = true → ∀ m,
          search_dependencies envOneDep A.deps directories_to_search = .ok (some m) → m ∈ t)
      ∧ (∀ m ∈ t, ∃ A ∈ ([mNeedsDep, mNeedsTwo] : List Module),
          has_dependencies A = true ∧
          search_dependencies envOneDep A.deps directories_to_search = .ok (some m)) := by
  refine add_dependencies_first_found envOneDep [mNeedsDep, mNeedsTwo] ?_
  intro A hA _
  rcases List.mem_cons.mp hA with h | h
  · subst h
    exact ⟨some mDep, rfl⟩
  · rw [List.mem_singleton] at h
    subst h
    exact ⟨none, rfl⟩

/-- C5 counterexample: two distinct pipeline modules declare the same
dependency name dep, which resolves to the module mDep that is itself already
in the pipeline; the expanded list then holds two instances of mDep, not
exactly one. -/
theorem add_dependencies_dedup_counterexample :
    mNeedsDep ≠ mAlsoNeedsDep
    ∧ mNeedsDep.deps = ["dep"]
    ∧ mAlsoNeedsDep.deps = ["dep"]
    ∧ add_dependencies envOneDep [mNeedsDep, mAlsoNeedsDep, mDep] =
        .ok [mNeedsDep, mAlsoNeedsDep, mDep, mDep]
    ∧ List.count mDep [mNeedsDep, mAlsoNeedsDep, mDep, mDep] = 2 := by
  exact ⟨by decide, rfl, rfl, rfl, by decide⟩

/-- C5 (amended): if two distinct pipeline modules declare the same
dependency name and it resolves (both times) to a module not itself part of
the input pipeline, the expanded list contains exactly one instance of that
dependency module; the collected dependency segment is deduplicated, but a
dependency equal to an input module is not deduplicated against the input. -/
theorem add_dependencies_dedup (env : Env) (L R : List Module) (A B m : Module)
    (hA : A ∈ L) (hB : B ∈ L) (hAB : A ≠ B)
    (hdA : has_dependencies A = true) (hdB : has_dependencies B = true)
    (hsA : search_dependencies env A.deps directories_to_search = .ok (some m))
    (hsB : search_dependencies env B.deps directories_to_search = .ok (some m))
    (hm : m ∉ L)
    (hR : add_dependencies env L = .ok R) :
    R.count m = 1 := by
  unfold add_dependencies at hR
  cases haux : add_dependencies_aux env [] L with
  | error e =>
    rw [haux] at hR
    cases hR
  | ok deps =>
    rw [haux] at hR
    injection hR with hR
    subst hR
    have hnd : deps.Nodup := add_dependencies_aux_nodup env L [] List.nodup_nil deps haux
    have hmem : m ∈ deps := add_dependencies_aux_mem_of_found env L [] deps A m hA hdA hsA haux
    rw [List.count_append, List.count_eq_zero.mpr hm, List.count_eq_one_of_mem hnd hmem]

/-- C5 witness: two distinct modules both depending on dep, with dep not in
the pipeline, yield exactly one copy of mDep after expansion. -/
theorem add_dependencies_dedup_witness :
    List.count mDep [mNeedsDep, mAlsoNeedsDep, mDep] = 1 :=
  add_dependencies_dedup envOneDep [mNeedsDep, mAlsoNeedsDep]
    [mNeedsDep, mAlsoNeedsDep, mDep] mNeedsDep mAlsoNeedsDep mDep
    (by decide) (by decide) (by decide) rfl rfl rfl rfl (by decide) rfl

/-- C6: for a name in a category list, resolution tries the framework
namespace of the category first and the working directory of the caller only on
failure there; when both lookups fail, loading fails with a
ModuleNotFoundError whose message names both searched locations (the
igm/modules/folder directory and the current working directory). -/
theorem module_lookup_two_locations (env : Env) (folder name : String) (rest : List String) :
    (∀ m, Env.dir env folder name = some m → import_module env folder name = .ok m)
    ∧ (Env.dir env folder name = none → ∀ m, env.cwd name = some m →
        import_module env folder name = .ok m)
    ∧ (Env.dir env folder name = none → env.cwd name = none →
        load_modules_from_directory env (name :: rest) folder =
          .error (.moduleNotFoundError name folder)
        ∧ (∃ x y, (LoadError.moduleNotFoundError name folder).message env =
            x ++ (env.igm_path ++ "/modules/" ++ folder) ++ y)
        ∧ (∃ x y, (LoadError.moduleNotFoundError name folder).message env =
            x ++ "current working directory" ++ y)) := by
  refine ⟨?_, ?_, ?_⟩
  · intro m h
    unfold import_module
    rw [h]
  · intro h m hc
    unfold import_module
    rw [h, hc]
  · intro h hc
    refine ⟨?_, ?_, ?_⟩
    · unfold load_modules_from_directory import_module
      rw [h, hc]
    · refine ⟨"Can not find module " ++ name ++ ". Make sure it is either in the 1) ",
        " directory or 2) in your current working directory.", ?_⟩
      simp [LoadError.message, String.append_assoc]
    · refine ⟨"Can not find module " ++ name ++ ". Make sure it is either in the 1) " ++
        env.igm_path ++ "/modules/" ++ folder ++ " directory or 2) in your ", ".", ?_⟩
      simp [LoadError.message, String.append_assoc]

/-- C6 witness: in an environment where the name ghost is nowhere to be
found, loading it from the process category fails with the
ModuleNotFoundError naming both locations. -/
theorem module_lookup_two_locations_witness :
    load_modules_from_directory envThree ["ghost"] "process" =
      .error (.moduleNotFoundError "ghost" "process")
    ∧ (∃ x y, (LoadError.moduleNotFoundError "ghost" "process").message envThree =
        x ++ (envThree.igm_path ++ "/modules/" ++ "process") ++ y)
    ∧ (∃ x y, (LoadError.moduleNotFoundError "ghost" "process").message envThree =
        x ++ "current working directory" ++ y) :=
  (module_lookup_two_locations envThree "process" "ghost" []).2.2 (by rfl) (by rfl)

/-- C10: add_dependencies only ever appends to its input: whenever it returns
normally, the returned list starts with the input modules, unchanged and in
their original order, followed by the collected dependencies. -/
theorem add_dependencies_input_unchanged (env : Env) (L R : List Module)
    (h : add_dependencies env L = .ok R) : ∃ t, R = L ++ t := by
  unfold add_dependencies at h
  cases haux : add_dependencies_aux env [] L with
  | error e => rw [haux] at h; cases h
  | ok deps => rw [haux] at h; injection h with h; exact ⟨deps, h.symm⟩

/-- C10 witness: on a concrete pipeline the expanded list extends the input. -/
theorem add_dependencies_input_unchanged_witness :
    ∃ t, ([mNeedsDep, mDep, mDep] : List Module) = [mNeedsDep, mDep] ++ t :=
  add_dependencies_input_unchanged envOneDep [mNeedsDep, mDep] [mNeedsDep, mDep, mDep]
    (by rfl)

/-- C7: a configuration whose modules_process list contains time_step makes
the modelled run abort with the deprecation message before any module is
resolved (the outcome does not depend on the module environment at all),
while a configuration without it never triggers the deprecation abort.
The placement of the override step before resolution is modelled from the
spec (the run driver itself is not under src). -/
theorem time_step_deprecation_check (env : Env) (LIST : List String)
    (dic_params : List (String × JsonValue)) (md : ModulesDict) (mp : List String)
    (h : lookupKey dic_params "modules_process" = some (.jlist mp)) :
    ("time_step" ∈ mp →
        run_igm env LIST dic_params md = .exited deprecation_exit_message)
    ∧ ("time_step" ∉ mp → ∀ msg, run_igm env LIST dic_params md ≠ .exited msg) := by
  constructor
  · intro hmem
    unfold run_igm overide_from_json_file
    rw [h]
    simp [JsonValue.containsName, List.contains, List.elem_eq_mem, hmem]
  · intro hnot msg
    unfold run_igm overide_from_json_file
    rw [h]
    simp only [JsonValue.containsName, List.contains, List.elem_eq_mem, hnot,
      decide_False, if_neg, Bool.false_eq_true, not_false_eq_true]
    cases hld : load_modules env md <;> simp

/-- C7 witness: a configuration listing time_step among its process modules
exits with the deprecation message, one without it never does. -/
theorem time_step_deprecation_check_witness :
    run_igm envThree ["working_dir"]
        [("modules_process", .jlist ["iceflow", "time_step", "thk"])] mdThree =
      .exited deprecation_exit_message
    ∧ ∀ msg, run_igm envThree ["working_dir"]
        [("modules_process", .jlist ["iceflow", "time", "thk"])] mdThree ≠ .exited msg := by
  constructor
  · exact (time_step_deprecation_check envThree ["working_dir"]
      [("modules_process", .jlist ["iceflow", "time_step", "thk"])] mdThree
      ["iceflow", "time_step", "thk"] rfl).1 (by decide)
  · exact (time_step_deprecation_check envThree ["working_dir"]
      [("modules_process", .jlist ["iceflow", "time", "thk"])] mdThree
      ["iceflow", "time", "thk"] rfl).2 (by decide)

/-- C8: when the override step completes (no deprecation hit), only entries
whose key is registered in LIST are applied as overrides, every unregistered
key of the file is warned about and not applied, the run is not aborted, and
the key space of the final parameter set after set_defaults stays inside the
registered options. -/
theorem overide_registered_keys_only (LIST : List String)
    (dic_params : List (String × JsonValue)) (mp : List String)
    (defaults : List (String × JsonValue))
    (hmp : lookupKey dic_params "modules_process" = some (.jlist mp))
    (hts : "time_step" ∉ mp)
    (hdef : ∀ kv ∈ defaults, kv.1 ∈ LIST) :
    ∃ warnings filtered_dict,
      overide_from_json_file LIST dic_params true = .ok warnings filtered_dict
      ∧ (∀ kv ∈ filtered_dict, kv.1 ∈ LIST)
      ∧ (∀ k v, (k, v) ∈ dic_params → k ∉ LIST →
          k ∈ warnings ∧ ∀ w, (k, w) ∉ filtered_dict)
      ∧ (∀ kv ∈ set_defaults defaults filtered_dict, kv.1 ∈ LIST) := by
  refine ⟨(dic_params.map Prod.fst).filter (fun k => !(LIST.contains k)),
    dic_params.filter (fun kv => LIST.contains kv.1), ?_, ?_, ?_, ?_⟩
  · unfold overide_from_json_file
    rw [hmp]
    simp only [JsonValue.containsName, List.contains, List.elem_eq_mem, hts,
      decide_False, Bool.false_eq_true, if_false, if_true]
  · intro kv hkv
    have := List.of_mem_filter hkv
    simpa [List.contains, List.elem_eq_mem] using this
  · intro k v hkv hk
    constructor
    · refine List.mem_filter.mpr ⟨?_, ?_⟩
      · exact List.mem_map.mpr ⟨(k, v), hkv, rfl⟩
      · simp [List.contains, List.elem_eq_mem, hk]
    · intro w hw
      have := List.of_mem_filter hw
      simp [List.contains, List.elem_eq_mem, hk] at this
  · intro kv hkv
    unfold set_defaults at hkv
    obtain ⟨kv0, hkv0, heq⟩ := List.mem_map.mp hkv
    have hk0 := hdef kv0 hkv0
    cases hl : lookupKey (List.filter (fun kv => LIST.contains kv.1) dic_params) kv0.1 with
    | none => rw [hl] at heq; rw [← heq]; exact hk0
    | some v => rw [hl] at heq; rw [← heq]; exact hk0

/-- C8 witness: a file with one registered and one unregistered key applies
only the registered one, warns on the other, and the final parameter keys
stay registered. -/
theorem overide_registered_keys_only_witness :
    ("time_step" ∉ (["iceflow"] : List String))
    ∧ ∃ warnings filtered_dict,
      overide_from_json_file ["modules_process", "working_dir"]
          [("modules_process", .jlist ["iceflow"]), ("mystery", .jstr "1")] true =
        .ok warnings filtered_dict
      ∧ (∀ kv ∈ filtered_dict, kv.1 ∈ (["modules_process", "working_dir"] : List String))
      ∧ (∀ k v, (k, v) ∈ [("modules_process", JsonValue.jlist ["iceflow"]),
            ("mystery", JsonValue.jstr "1")] →
          k ∉ (["modules_process", "working_dir"] : List String) →
          k ∈ warnings ∧ ∀ w, (k, w) ∉ filtered_dict)
      ∧ (∀ kv ∈ set_defaults [("working_dir", JsonValue.jstr "")] filtered_dict,
          kv.1 ∈ (["modules_process", "working_dir"] : List String)) := by
  refine ⟨by decide, ?_⟩
  exact overide_registered_keys_only ["modules_process", "working_dir"]
    [("modules_process", .jlist ["iceflow"]), ("mystery", .jstr "1")] ["iceflow"]
    [("working_dir", .jstr "")] rfl (by decide) (by decide)

/-- Character-level contents of the String.intercalate loop. -/
theorem intercalate_go_data (s : String) :
    ∀ (as : List String) (acc : String),
      (String.intercalate.go acc s as).data =
        acc.data ++ (as.map fun a => s.data ++ a.data).flatten := by
  intro as
  induction as with
  | nil => intro acc; simp [String.intercalate.go]
  | cons a as ih =>
    intro acc
    rw [String.intercalate.go, ih]
    simp [List.append_assoc]

/-- List.intercalate of a nonempty list, in flattened form. -/
theorem list_intercalate_eq {α : Type} (sep : List α) :
    ∀ (a : List α) (as : List (List α)),
      List.intercalate sep (a :: as) = a ++ (as.map fun x => sep ++ x).flatten := by
  intro a as
  induction as generalizing a with
  | nil => simp [List.intercalate]
  | cons b as ih =>
    have hb := ih b
    simp only [List.intercalate] at hb ⊢
    rw [List.intersperse_cons_cons]
    simp only [List.flatten_cons, List.map_cons]
    rw [hb]
    simp [List.append_assoc]

/-- String.intercalate agrees with List.intercalate on the character data. -/
theorem string_intercalate_data (s : String) (ls : List String) :
    (String.intercalate s ls).data = List.intercalate s.data (ls.map String.data) := by
  cases ls with
  | nil => rfl
  | cons a as =>
    show (String.intercalate.go a s as).data = _
    rw [intercalate_go_data, List.map_cons, list_intercalate_eq]
    rw [List.map_map]
    rfl

/-- Splitting on newline undoes joining with newline for newline-free lines. -/
theorem split_intercalate_strings (ls : List String)
    (hnl : ∀ l ∈ ls, '\n' ∉ l.data) (h0 : ls ≠ []) :
    (String.intercalate "\n" ls).split (fun c => c == '\n') = ls := by
  rw [String.split_of_valid, string_intercalate_data]
  have hx : ∀ l ∈ ls.map String.data, '\n' ∉ l := by
    intro l hl
    obtain ⟨x, hxl, rfl⟩ := List.mem_map.mp hl
    exact hnl x hxl
  have hls : ls.map String.data ≠ [] := by simpa using h0
  have hsplit := List.splitOn_intercalate (ls.map String.data) '\n' hx hls
  have hconv : List.splitOnP (fun c => c == '\n')
      (List.intercalate ('\n' :: []) (ls.map String.data)) =
      (List.intercalate ['\n'] (ls.map String.data)).splitOn '\n' := rfl
  rw [show ("\n".data) = ['\n'] from rfl, hconv, hsplit, List.map_map]
  have hid : (String.mk ∘ String.data) = id := funext fun l => rfl
  rw [hid, List.map_id]



/-- Every text is the newline-join of its newline-split lines. -/
theorem string_lines_roundtrip (s : String) :
    String.intercalate "\n" (s.split (fun c => c == '\n')) = s := by
  apply String.ext
  rw [string_intercalate_data, String.split_of_valid, List.map_map]
  have hid : (String.data ∘ String.mk) = id := funext fun l => rfl
  rw [hid, List.map_id]
  exact List.intercalate_splitOn s.data '\n'

/-- C9: every input text is the join of its lines, and comment stripping of
the join of any nonempty list of (newline-free) lines removes exactly the
lines that, after trimming, start with // or #, leaving every other line --
including lines holding // in the middle, such as inside a JSON string value
-- unchanged and in order. -/
theorem remove_comments_line_filter :
    (∀ s : String, String.intercalate "\n" (s.split (fun c => c == '\n')) = s)
    ∧ ∀ ls : List String, ls ≠ [] → (∀ l ∈ ls, '\n' ∉ l.data) →
        remove_comments (String.intercalate "\n" ls) =
          String.intercalate "\n" (ls.filter
            (fun line => !(((line.trim).startsWith "//") || ((line.trim).startsWith "#"))))
        ∧ ∀ l ∈ ls, ((l.trim).startsWith "//") = false → ((l.trim).startsWith "#") = false →
            l ∈ ls.filter
              (fun line => !(((line.trim).startsWith "//") || ((line.trim).startsWith "#"))) := by
  refine ⟨string_lines_roundtrip, ?_⟩
  intro ls h0 hnl
  constructor
  · unfold remove_comments
    rw [split_intercalate_strings ls hnl h0]
  · intro l hl h1 h2
    refine List.mem_filter.mpr ⟨hl, ?_⟩
    simp [h1, h2]

/-- C9 witness: a config fragment with a full-line // comment, a full-line
hash comment, and a URL containing // inside a string value keeps exactly the
non-comment lines. -/
theorem remove_comments_line_filter_witness :
    remove_comments (String.intercalate "\n"
      ["  \"url\": \"http://example.org\",", "// full line comment",
       "  # hash comment", "  \"thk\": 1"]) =
    String.intercalate "\n" (List.filter
      (fun line => !(((line.trim).startsWith "//") || ((line.trim).startsWith "#")))
      ["  \"url\": \"http://example.org\",", "// full line comment",
       "  # hash comment", "  \"thk\": 1"]) :=
  (remove_comments_line_filter.2
    ["  \"url\": \"http://example.org\",", "// full line comment",
     "  # hash comment", "  \"thk\": 1"] (by decide) (by decide)).1


end Igm
